import Mathlib

/-!
Verification of the workflow-orchestration core of the Mult-Agent repository.

The Lean definitions below are a shallow embedding of the Python sources:
  * `backend/agents/services/workflow_dag.py`      — DAG model and engine
  * `backend/agents/services/workflow_orchestrator.py` — step scheduler
  * `backend/agents/services/agent_selector.py`    — executor selection scoring
  * `backend/agents/services/performance_tracker.py` — incremental statistics

Python floats are modelled as rationals, Python dicts as association lists
(preserving dict semantics: insertion order, in-place overwrite), Python sets
of ids as lists of strings, and exceptions as explicit `Option`/error values
returned at the exact program points where the source raises.  Step bodies
(`node.action`, agent calls) are external collaborators and are modelled as
outcome oracles.
-/

set_option autoImplicit false

namespace MultAgent

/-! ## Graph model: `workflow_dag.py` -/

/-- `NodeStatus` enum from `workflow_dag.py`. -/
inductive NodeStatus where
  | PENDING
  | RUNNING
  | SUCCESS
  | FAILED
  | SKIPPED
  | RETRYING
  deriving DecidableEq, Repr

/-- A node of the workflow DAG (`WorkflowNode`).  Only the fields the
orchestration logic reads are modelled: `id`, `dependencies`, `status`.
The callables (`action`, `condition`) are external collaborators, modelled
by the engine's outcome oracle; timestamps and metadata are not read by
any orchestration decision. -/
structure WorkflowNode where
  id : String
  dependencies : List String
  status : NodeStatus
  deriving DecidableEq, Repr

/-- `WorkflowNode.can_execute`: all dependencies are in the completed set. -/
def WorkflowNode.can_execute (n : WorkflowNode) (completed_nodes : List String) : Bool :=
  n.dependencies.all (fun dep => completed_nodes.contains dep)

/-- `WorkflowDAG`: nodes (dict keyed by id, modelled as an ordered list),
`edges` (dict node id ↦ dependent node ids) and the shared execution
`context` (dict, modelled as an ordered association list). -/
structure WorkflowDAG where
  nodes : List WorkflowNode
  edges : List (String × List String)
  context : List (String × String)
  deriving DecidableEq, Repr

/-- The ids of the DAG's nodes (`self.nodes` dict keys). -/
def WorkflowDAG.nodeIds (dag : WorkflowDAG) : List String :=
  dag.nodes.map (fun n => n.id)

/-- `self.edges.get(node_id, [])`. -/
def WorkflowDAG.edgesOf (dag : WorkflowDAG) (node_id : String) : List String :=
  (dag.edges.lookup node_id).getD []

/-- `WorkflowDAG.get_executable_nodes`: PENDING nodes whose every dependency
is in the completed set. -/
def get_executable_nodes (dag : WorkflowDAG) (completed_nodes : List String) :
    List WorkflowNode :=
  dag.nodes.filter (fun n =>
    n.status == NodeStatus.PENDING && n.can_execute completed_nodes)

/-- `WorkflowDAG.get_start_nodes`: nodes with no dependencies. -/
def get_start_nodes (dag : WorkflowDAG) : List WorkflowNode :=
  dag.nodes.filter (fun n => n.dependencies.isEmpty)

/-- Claim C1: every node returned by the ready-set query
`get_executable_nodes` has status PENDING and all of its declared
dependencies in the completed set, so a step is never reported executable
before all of its dependencies are terminal. -/
theorem get_executable_nodes_sound (dag : WorkflowDAG) (completed_nodes : List String)
    (n : WorkflowNode) (hmem : n ∈ get_executable_nodes dag completed_nodes) :
    n.status = NodeStatus.PENDING ∧ ∀ dep ∈ n.dependencies, dep ∈ completed_nodes := by
  unfold get_executable_nodes at hmem
  rw [List.mem_filter] at hmem
  obtain ⟨-, hcond⟩ := hmem
  rw [Bool.and_eq_true] at hcond
  obtain ⟨hstat, hdeps⟩ := hcond
  refine ⟨by simpa using hstat, ?_⟩
  intro dep hdep
  unfold WorkflowNode.can_execute at hdeps
  rw [List.all_eq_true] at hdeps
  simpa using hdeps dep hdep

/-- A concrete two-node DAG used as a sanity witness: `b` depends on `a`. -/
def dagAB : WorkflowDAG :=
  { nodes :=
      [ { id := "a", dependencies := [], status := NodeStatus.PENDING }
      , { id := "b", dependencies := ["a"], status := NodeStatus.PENDING } ]
  , edges := [("a", ["b"]), ("b", [])]
  , context := [] }

/-- Witness for C1: with `a` completed, node `b` is returned by the query and
the theorem's conclusions hold for it concretely. -/
theorem get_executable_nodes_sound_witness :
    { id := "b", dependencies := ["a"], status := NodeStatus.PENDING } ∈
        get_executable_nodes dagAB ["a"] ∧
      ({ id := "b", dependencies := ["a"], status := NodeStatus.PENDING } :
          WorkflowNode).status = NodeStatus.PENDING ∧
      ∀ dep ∈ ({ id := "b", dependencies := ["a"], status := NodeStatus.PENDING } :
          WorkflowNode).dependencies, dep ∈ ["a"] :=
  ⟨by decide,
   get_executable_nodes_sound dagAB ["a"] _ (by decide)⟩

/-! ## Cycle detection: `WorkflowDAG._creates_cycle` and `WorkflowDAG.add_edge` -/

mutual
/-- The inner `dfs` of `_creates_cycle`: search for `from_node` starting at
`node_id`, threading the mutable `visited` set.  The Python recursion
terminates because `visited` only grows; here an explicit fuel argument makes
the recursion structural, and the lemmas below show that the fuel supplied by
`creates_cycle` is never exhausted on a well-formed graph. -/
def dfsNode (edges : String → List String) (from_node : String) :
    ℕ → List String → String → Bool × List String
  | 0, visited, _ => (false, visited)
  | fuel + 1, visited, node_id =>
    if node_id = from_node then (true, visited)
    else if node_id ∈ visited then (false, visited)
    else dfsChildren edges from_node fuel (node_id :: visited) (edges node_id)
termination_by fuel visited node_id => (fuel, 0)

/-- The `for next_node in self.edges.get(node_id, [])` loop inside `dfs`. -/
def dfsChildren (edges : String → List String) (from_node : String) :
    ℕ → List String → List String → Bool × List String
  | _, visited, [] => (false, visited)
  | fuel, visited, c :: cs =>
    match dfsNode edges from_node fuel visited c with
    | (true, vis) => (true, vis)
    | (false, vis) => dfsChildren edges from_node fuel vis cs
termination_by fuel visited l => (fuel, l.length + 1)
end

theorem dfsNode_zero (edges : String → List String) (from_node : String)
    (visited : List String) (node_id : String) :
    dfsNode edges from_node 0 visited node_id = (false, visited) := by
  simp [dfsNode]

theorem dfsNode_succ (edges : String → List String) (from_node : String)
    (fuel : ℕ) (visited : List String) (node_id : String) :
    dfsNode edges from_node (fuel + 1) visited node_id =
      if node_id = from_node then (true, visited)
      else if node_id ∈ visited then (false, visited)
      else dfsChildren edges from_node fuel (node_id :: visited) (edges node_id) := by
  simp [dfsNode]

theorem dfsChildren_nil (edges : String → List String) (from_node : String)
    (fuel : ℕ) (visited : List String) :
    dfsChildren edges from_node fuel visited [] = (false, visited) := by
  simp [dfsChildren]

theorem dfsChildren_cons (edges : String → List String) (from_node : String)
    (fuel : ℕ) (visited : List String) (c : String) (cs : List String) :
    dfsChildren edges from_node fuel visited (c :: cs) =
      match dfsNode edges from_node fuel visited c with
      | (true, vis) => (true, vis)
      | (false, vis) => dfsChildren edges from_node fuel vis cs := by
  simp [dfsChildren]

/-- `WorkflowDAG._creates_cycle(from_node, to_node)`: DFS from `to_node`
looking for `from_node`. -/
def creates_cycle (dag : WorkflowDAG) (from_node to_node : String) : Bool :=
  (dfsNode dag.edgesOf from_node (dag.nodes.length + 1) [] to_node).1

/-- `WorkflowDAG.add_edge`.  The Python method either raises — leaving the
object untouched, since both mutations happen after all three checks — or
mutates.  The model returns the resulting graph together with the raised
error message, the graph component being the unchanged input at every raise
point. -/
def add_edge (dag : WorkflowDAG) (from_node_id to_node_id : String) :
    WorkflowDAG × Option String :=
  if from_node_id ∉ dag.nodeIds then
    (dag, some ("Node " ++ from_node_id ++ " not found"))
  else if to_node_id ∉ dag.nodeIds then
    (dag, some ("Node " ++ to_node_id ++ " not found"))
  else if creates_cycle dag from_node_id to_node_id then
    (dag, some "Adding this edge would create a cycle")
  else
    ({ dag with
        edges := dag.edges.map (fun p =>
          if p.1 = from_node_id then (p.1, p.2 ++ [to_node_id]) else p)
        nodes := dag.nodes.map (fun n =>
          if n.id = to_node_id then
            { n with dependencies := n.dependencies ++ [from_node_id] }
          else n) },
     none)

/-- Reachability along the dependents-edge map: `Reach edges a b` holds when
`b` can be reached from `a` by following zero or more edges. -/
inductive Reach (edges : String → List String) : String → String → Prop
  | refl (a : String) : Reach edges a a
  | step {a b c : String} : b ∈ edges a → Reach edges b c → Reach edges a c

/-- Number of graph nodes not yet visited — bookkeeping for the DFS fuel. -/
def unvisited (allNodes visited : List String) : ℕ :=
  (allNodes.filter (fun x => decide (x ∉ visited))).length

theorem unvisited_le_length (allNodes visited : List String) :
    unvisited allNodes visited ≤ allNodes.length :=
  List.length_filter_le _ _

theorem unvisited_mono (allNodes : List String) {visited visited' : List String}
    (h : visited ⊆ visited') :
    unvisited allNodes visited' ≤ unvisited allNodes visited := by
  induction allNodes with
  | nil => simp [unvisited]
  | cons a t ih =>
    unfold unvisited at ih ⊢
    rw [List.filter_cons, List.filter_cons]
    by_cases hv : a ∈ visited
    · have hv' : a ∈ visited' := h hv
      rw [if_neg (by simpa using hv'), if_neg (by simpa using hv)]
      exact ih
    · by_cases hv' : a ∈ visited'
      · rw [if_neg (by simpa using hv'), if_pos (by simpa using hv)]
        simp only [List.length_cons]
        exact Nat.le_succ_of_le ih
      · rw [if_pos (by simpa using hv'), if_pos (by simpa using hv)]
        simp only [List.length_cons]
        exact Nat.succ_le_succ ih

theorem unvisited_cons_lt {allNodes visited : List String} {n : String}
    (hn : n ∈ allNodes) (hv : n ∉ visited) :
    unvisited allNodes (n :: visited) < unvisited allNodes visited := by
  induction allNodes with
  | nil => cases hn
  | cons a t ih =>
    unfold unvisited
    rw [List.filter_cons, List.filter_cons]
    by_cases ha : a = n
    · subst ha
      rw [if_neg (by simp), if_pos (by simpa using hv)]
      simp only [List.length_cons]
      exact Nat.lt_succ_of_le
        (unvisited_mono t (fun x hx => List.mem_cons_of_mem _ hx))
    · have hmem : n ∈ t := by
        rcases List.mem_cons.mp hn with h | h
        · exact absurd h.symm ha
        · exact h
      by_cases hav : a ∈ visited
      · rw [if_neg (by simp [List.mem_cons, hav]), if_neg (by simpa using hav)]
        exact ih hmem
      · rw [if_pos (by simp [List.mem_cons, ha, hav]), if_pos (by simpa using hav)]
        simp only [List.length_cons]
        exact Nat.succ_lt_succ (ih hmem)

/-- After a failed search, every node visited during the search has all of
its successors inside the final visited set and none of them is the search
target. -/
def DfsClosed (edges : String → List String) (from_node : String)
    (visited res : List String) : Prop :=
  ∀ v ∈ res, v ∉ visited → ∀ c ∈ edges v, c ≠ from_node ∧ c ∈ res

/-- Specification of `dfsNode` at a given fuel: a failed search starting from
`node_id` with enough fuel ends with `node_id` visited, the target unvisited,
and the newly visited region closed under edges. -/
def DfsNodeSpec (edges : String → List String) (from_node : String)
    (allNodes : List String) (fuel : ℕ) : Prop :=
  ∀ visited node_id res,
    unvisited allNodes visited + 1 ≤ fuel →
    from_node ∉ visited →
    dfsNode edges from_node fuel visited node_id = (false, res) →
    visited ⊆ res ∧ node_id ≠ from_node ∧ node_id ∈ res ∧ from_node ∉ res ∧
      DfsClosed edges from_node visited res

/-- Specification of `dfsChildren` at a given fuel. -/
def DfsChildrenSpec (edges : String → List String) (from_node : String)
    (allNodes : List String) (fuel : ℕ) : Prop :=
  ∀ visited l res,
    unvisited allNodes visited + 1 ≤ fuel →
    from_node ∉ visited →
    dfsChildren edges from_node fuel visited l = (false, res) →
    visited ⊆ res ∧ from_node ∉ res ∧ (∀ c ∈ l, c ≠ from_node ∧ c ∈ res) ∧
      DfsClosed edges from_node visited res

theorem dfsChildren_spec_of_node {edges : String → List String}
    {from_node : String} {allNodes : List String} {fuel : ℕ}
    (hnode : DfsNodeSpec edges from_node allNodes fuel) :
    DfsChildrenSpec edges from_node allNodes fuel := by
  intro visited l
  induction l generalizing visited with
  | nil =>
    intro res _ hf heq
    rw [dfsChildren_nil] at heq
    injection heq with _ h
    subst h
    exact ⟨fun x hx => hx, hf, by simp, fun v hv hvn => absurd hv hvn⟩
  | cons c cs ih =>
    intro res hfuel hf heq
    rw [dfsChildren_cons] at heq
    rcases h1 : dfsNode edges from_node fuel visited c with ⟨b1, vis1⟩
    rw [h1] at heq
    cases b1 with
    | true => simp at heq
    | false =>
      replace heq : dfsChildren edges from_node fuel vis1 cs = (false, res) := heq
      obtain ⟨hsub1, hcne, hcmem, hfres1, hclosed1⟩ :=
        hnode visited c vis1 hfuel hf h1
      obtain ⟨hsub2, hfres2, hcs, hclosed2⟩ :=
        ih vis1 res
          (le_trans (Nat.add_le_add_right
            (unvisited_mono allNodes hsub1) 1) hfuel)
          hfres1 heq
      refine ⟨fun x hx => hsub2 (hsub1 hx), hfres2, ?_, ?_⟩
      · intro x hx
        rcases List.mem_cons.mp hx with h | h
        · subst h; exact ⟨hcne, hsub2 hcmem⟩
        · exact hcs x h
      · intro v hv hvnot c' hc'
        by_cases hv1 : v ∈ vis1
        · obtain ⟨h1', h2'⟩ := hclosed1 v hv1 hvnot c' hc'
          exact ⟨h1', hsub2 h2'⟩
        · exact hclosed2 v hv hv1 c' hc'

theorem dfsNode_spec {edges : String → List String} {from_node : String}
    {allNodes : List String}
    (hWF : ∀ x, x ∉ allNodes → edges x = []) :
    ∀ fuel, DfsNodeSpec edges from_node allNodes fuel := by
  intro fuel
  induction fuel with
  | zero =>
    intro visited node_id res hfuel
    exact absurd hfuel (by omega)
  | succ f ih =>
    intro visited node_id res hfuel hf heq
    rw [dfsNode_succ] at heq
    by_cases h1 : node_id = from_node
    · rw [if_pos h1] at heq; simp at heq
    · rw [if_neg h1] at heq
      by_cases h2 : node_id ∈ visited
      · rw [if_pos h2] at heq
        injection heq with _ h
        subst h
        exact ⟨fun x hx => hx, h1, h2, hf, fun v hv hvn => absurd hv hvn⟩
      · rw [if_neg h2] at heq
        have hfres : from_node ∉ node_id :: visited := by
          intro hx
          rcases List.mem_cons.mp hx with h | h
          · exact h1 h.symm
          · exact hf h
        by_cases h3 : node_id ∈ allNodes
        · have hlt := unvisited_cons_lt h3 h2
          obtain ⟨hsub, hfres', hch, hclosed⟩ :=
            dfsChildren_spec_of_node ih (node_id :: visited) (edges node_id)
              res (by omega) hfres heq
          refine ⟨fun x hx => hsub (List.mem_cons_of_mem _ hx), h1,
            hsub (List.mem_cons_self _ _), hfres', ?_⟩
          intro v hv hvnot c' hc'
          by_cases hvn : v = node_id
          · subst hvn
            exact hch c' hc'
          · have hvv : v ∉ node_id :: visited := by
              intro hx
              rcases List.mem_cons.mp hx with h | h
              · exact hvn h
              · exact hvnot h
            exact hclosed v hv hvv c' hc'
        · have he : edges node_id = [] := hWF node_id h3
          rw [he, dfsChildren_nil] at heq
          injection heq with _ h
          subst h
          refine ⟨fun x hx => List.mem_cons_of_mem _ hx, h1,
            List.mem_cons_self _ _, hfres, ?_⟩
          intro v hv hvnot c' hc'
          have hvn : v = node_id := by
            rcases List.mem_cons.mp hv with h | h
            · exact h
            · exact absurd h hvnot
          subst hvn
          rw [he] at hc'
          cases hc'

/-- Completeness of the cycle check: if `from_node` is reachable from
`to_node` in the current graph — i.e. adding the edge
`from_node → to_node` would close a cycle — then `_creates_cycle`
reports `true`. -/
theorem reach_creates_cycle (dag : WorkflowDAG) (from_node to_node : String)
    (hWF : ∀ x, x ∉ dag.nodeIds → dag.edgesOf x = [])
    (hreach : Reach dag.edgesOf to_node from_node) :
    creates_cycle dag from_node to_node = true := by
  by_contra hfalse
  rcases heq : dfsNode dag.edgesOf from_node (dag.nodes.length + 1) [] to_node
    with ⟨b, res⟩
  have hb : b = false := by
    cases b with
    | false => rfl
    | true =>
      exact absurd (by unfold creates_cycle; rw [heq]) hfalse
  subst hb
  have hfuel : unvisited dag.nodeIds [] + 1 ≤ dag.nodes.length + 1 := by
    have h1 : unvisited dag.nodeIds [] ≤ dag.nodeIds.length :=
      unvisited_le_length _ _
    have h2 : dag.nodeIds.length = dag.nodes.length := by
      simp [WorkflowDAG.nodeIds]
    omega
  obtain ⟨-, -, htmem, hfnot, hclosed⟩ :=
    dfsNode_spec hWF (dag.nodes.length + 1) [] to_node res hfuel
      (by simp) heq
  have hwalk : ∀ x y, Reach dag.edgesOf x y → x ∈ res → y ∈ res := by
    intro x y hxy
    induction hxy with
    | refl a => exact fun h => h
    | step hb _ ih =>
      intro hx
      exact ih ((hclosed _ hx (by simp) _ hb).2)
  exact hfnot (hwalk _ _ hreach htmem)

/-- Claim C2: for every graph and every edge `(from, to)` whose insertion
would make `from` reachable from `to` (a cycle), `add_edge` fails with the
"would create a cycle" error and returns the graph exactly as it was: node
set, adjacency lists and all dependency lists are unchanged.  The
well-formedness hypothesis — edges only mention existing nodes — holds for
every graph built through `add_node`/`add_edge`. -/
theorem add_edge_rejects_cycle (dag : WorkflowDAG) (from_node_id to_node_id : String)
    (hWF : ∀ x, x ∉ dag.nodeIds → dag.edgesOf x = [])
    (hfrom : from_node_id ∈ dag.nodeIds) (hto : to_node_id ∈ dag.nodeIds)
    (hreach : Reach dag.edgesOf to_node_id from_node_id) :
    add_edge dag from_node_id to_node_id =
      (dag, some "Adding this edge would create a cycle") := by
  unfold add_edge
  rw [if_neg (not_not_intro hfrom), if_neg (not_not_intro hto),
    if_pos (reach_creates_cycle dag from_node_id to_node_id hWF hreach)]

/-- Witness for C2: in the two-node graph `a → b`, inserting the edge
`b → a` is rejected with the cycle error and the graph is returned
unchanged. -/
theorem add_edge_rejects_cycle_witness :
    add_edge dagAB "b" "a" = (dagAB, some "Adding this edge would create a cycle") :=
  add_edge_rejects_cycle dagAB "b" "a"
    (by
      intro x hx
      have hx' : x ≠ "a" ∧ x ≠ "b" := by
        simpa [dagAB, WorkflowDAG.nodeIds] using hx
      have ha : (x == "a") = false := beq_eq_false_iff_ne.mpr hx'.1
      have hb : (x == "b") = false := beq_eq_false_iff_ne.mpr hx'.2
      simp [WorkflowDAG.edgesOf, dagAB, List.lookup, ha, hb])
    (by decide) (by decide)
    (Reach.step (by decide) (Reach.refl "b"))

/-! ## Execution engine: `WorkflowEngine.execute_workflow` / `_execute_node`

`_execute_node` runs the node body (an external callable), retries
internally, updates `dag.context` with `node.outputs` on every
non-exception return, and either returns a boolean result or (re-)raises
after exhausting retries.  From `execute_workflow`'s point of view each
node therefore produces one of: an exception, or a boolean result together
with the outputs it merged.  That interface is the outcome oracle below;
the concurrent `asyncio.gather` wave is sequentialised in list order. -/

/-- What `_execute_node` yields to `asyncio.gather` for one node. -/
inductive ExecOutcome where
  | exn (msg : String)
  | finished (result : Bool) (outputs : List (String × String))
  deriving DecidableEq, Repr

/-- Python `dict.__setitem__`: replace in place if the key exists, else
append. -/
def dictSet (ctx : List (String × String)) (k v : String) :
    List (String × String) :=
  if ctx.any (fun p => decide (p.1 = k)) then
    ctx.map (fun p => if p.1 = k then (k, v) else p)
  else
    ctx ++ [(k, v)]

/-- Python `dict.update`: set every key of `outputs` in order. -/
def dictUpdate (ctx : List (String × String)) (outputs : List (String × String)) :
    List (String × String) :=
  outputs.foldl (fun c p => dictSet c p.1 p.2) ctx

/-- Set the status of the node with the given id (in-place mutation of
`node.status` in the source). -/
def set_node_status (dag : WorkflowDAG) (node_id : String) (st : NodeStatus) :
    WorkflowDAG :=
  { dag with nodes := dag.nodes.map (fun n =>
      if n.id == node_id then { n with status := st } else n) }

/-- Process one `(node, result)` pair of `execute_workflow`'s gather loop,
together with the context update its `_execute_node` performed.  State is
`(dag, completed_nodes, failed_nodes)`. -/
def processNodeResult (oracle : String → ExecOutcome)
    (s : WorkflowDAG × List String × List String) (node : WorkflowNode) :
    WorkflowDAG × List String × List String :=
  match s with
  | (dag, completed_nodes, failed_nodes) =>
    match oracle node.id with
    | ExecOutcome.exn _ =>
      (set_node_status dag node.id NodeStatus.FAILED,
        completed_nodes, failed_nodes ++ [node.id])
    | ExecOutcome.finished result outputs =>
      let dag' := { set_node_status dag node.id
          (if result then NodeStatus.SUCCESS else NodeStatus.SKIPPED) with
        context := dictUpdate dag.context outputs }
      (dag', if result then completed_nodes ++ [node.id] else completed_nodes,
        failed_nodes)

/-- One wave: run every currently executable node, in list order. -/
def runWave (oracle : String → ExecOutcome)
    (s : WorkflowDAG × List String × List String)
    (executable_nodes : List WorkflowNode) :
    WorkflowDAG × List String × List String :=
  executable_nodes.foldl (processNodeResult oracle) s

/-- The next wave's `executable_nodes`: ready PENDING nodes, minus nodes
that depend on failed nodes (applied only when `failed_nodes` is
non-empty, as in the source). -/
def nextExecutable (dag : WorkflowDAG) (completed_nodes failed_nodes : List String) :
    List WorkflowNode :=
  let executable := get_executable_nodes dag completed_nodes
  if failed_nodes.isEmpty then executable
  else executable.filter (fun n =>
    !(n.dependencies.any (fun dep => failed_nodes.contains dep)))

/-- The `while executable_nodes:` loop of `execute_workflow`.  Every
processed node was PENDING and ends non-PENDING, so `dag.nodes.length + 1`
units of fuel always suffice for the concrete runs below. -/
def executeWorkflowLoop (oracle : String → ExecOutcome) :
    ℕ → WorkflowDAG × List String × List String → List WorkflowNode →
    WorkflowDAG × List String × List String
  | 0, s, _ => s
  | fuel + 1, s, executable_nodes =>
    if executable_nodes.isEmpty then s
    else
      match runWave oracle s executable_nodes with
      | (dag', completed', failed') =>
        executeWorkflowLoop oracle fuel (dag', completed', failed')
          (nextExecutable dag' completed' failed')

/-- The result dict built at the end of `execute_workflow`, plus the final
(mutated) DAG object. -/
structure WorkflowResult where
  status : String
  completed_nodes : ℕ
  failed_nodes : ℕ
  total_nodes : ℕ
  context : List (String × String)
  deriving DecidableEq, Repr

/-- `WorkflowEngine.execute_workflow`: seed with the start nodes, loop, then
compute the overall status (`completed` when the completed set equals the
node set, else `failed` when any node failed, else `partial`). -/
def execute_workflow (oracle : String → ExecOutcome) (dag : WorkflowDAG) :
    WorkflowResult × WorkflowDAG :=
  match executeWorkflowLoop oracle (dag.nodes.length + 1)
      (dag, [], []) (get_start_nodes dag) with
  | (dag', completed_nodes, failed_nodes) =>
    let all_nodes := dag'.nodes.map (fun n => n.id)
    let status :=
      if all_nodes.all (fun i => completed_nodes.contains i) &&
          completed_nodes.all (fun i => all_nodes.contains i) then "completed"
      else if !failed_nodes.isEmpty then "failed"
      else "partial"
    ({ status := status
     , completed_nodes := completed_nodes.length
     , failed_nodes := failed_nodes.length
     , total_nodes := dag'.nodes.length
     , context := dag'.context },
     dag')

/-- The status of a node in a DAG (`dag.nodes[node_id].status`). -/
def statusOf (dag : WorkflowDAG) (node_id : String) : Option NodeStatus :=
  (dag.nodes.find? (fun n => n.id == node_id)).map (fun n => n.status)

/-- Scenario graph for C3: A with no dependencies, B and C each depending
on A; all nodes PENDING. -/
def dagABC : WorkflowDAG :=
  { nodes :=
      [ { id := "A", dependencies := [], status := NodeStatus.PENDING }
      , { id := "B", dependencies := ["A"], status := NodeStatus.PENDING }
      , { id := "C", dependencies := ["A"], status := NodeStatus.PENDING } ]
  , edges := [("A", ["B", "C"]), ("B", []), ("C", [])]
  , context := [] }

/-- Outcome oracle for C3: A's body raises (all its retries exhausted
inside `_execute_node`); B and C would succeed if ever run. -/
def oracleAFails : String → ExecOutcome := fun node_id =>
  if node_id = "A" then ExecOutcome.exn "step A failed permanently"
  else ExecOutcome.finished true []

/-- Counterexample for C3: when A fails permanently in the graph
{A, B dep A, C dep A}, the engine leaves B and C with status PENDING —
it never marks transitive dependents SKIPPED, contradicting the claim
that B and C end in status SKIPPED. -/
theorem dependents_not_skipped_counterexample :
    statusOf (execute_workflow oracleAFails dagABC).2 "B" = some NodeStatus.PENDING ∧
    statusOf (execute_workflow oracleAFails dagABC).2 "C" = some NodeStatus.PENDING ∧
    NodeStatus.PENDING ≠ NodeStatus.SKIPPED := by
  refine ⟨?_, ?_, by decide⟩ <;> decide

/-- Amended C3: when a step exhausts its retries and becomes FAILED, its
dependents are never dispatched but keep status PENDING (not SKIPPED); for
the graph {A, B dep A, C dep A} with A failing permanently, the execution
ends with status "failed", 0 of 3 steps completed. -/
theorem dependents_stay_pending :
    statusOf (execute_workflow oracleAFails dagABC).2 "A" = some NodeStatus.FAILED ∧
    statusOf (execute_workflow oracleAFails dagABC).2 "B" = some NodeStatus.PENDING ∧
    statusOf (execute_workflow oracleAFails dagABC).2 "C" = some NodeStatus.PENDING ∧
    (execute_workflow oracleAFails dagABC).1.status = "failed" ∧
    (execute_workflow oracleAFails dagABC).1.completed_nodes = 0 ∧
    (execute_workflow oracleAFails dagABC).1.total_nodes = 3 := by
  refine ⟨?_, ?_, ?_, ?_, ?_, ?_⟩ <;> decide

/-- Scenario graph for C8: `writer` outputs the key "k", its dependent
`clobber` declares the same output key "k". -/
def dagClobber : WorkflowDAG :=
  { nodes :=
      [ { id := "writer", dependencies := [], status := NodeStatus.PENDING }
      , { id := "clobber", dependencies := ["writer"], status := NodeStatus.PENDING } ]
  , edges := [("writer", ["clobber"]), ("clobber", [])]
  , context := [] }

/-- Outcome oracle for C8: both steps succeed, both write the key "k". -/
def oracleClobber : String → ExecOutcome := fun node_id =>
  if node_id = "writer" then ExecOutcome.finished true [("k", "v1")]
  else if node_id = "clobber" then ExecOutcome.finished true [("k", "v2")]
  else ExecOutcome.finished true []

/-- Counterexample for C8: two steps write the same context key "k"; the
second write silently overwrites the first (`dict.update`), both steps
succeed and the workflow completes — no key-collision error exists. -/
theorem context_overwrite_counterexample :
    (execute_workflow oracleClobber dagClobber).1.context = [("k", "v2")] ∧
    (execute_workflow oracleClobber dagClobber).1.status = "completed" ∧
    "v2" ≠ "v1" := by
  refine ⟨?_, ?_, by decide⟩ <;> decide

theorem lookup_cons_self (k v : String) (l : List (String × String)) :
    List.lookup k ((k, v) :: l) = some v := by
  simp [List.lookup]

theorem lookup_cons_ne (k a v : String) (l : List (String × String)) (h : k ≠ a) :
    List.lookup k ((a, v) :: l) = List.lookup k l := by
  simp [List.lookup, beq_eq_false_iff_ne.mpr h]

theorem lookup_map_set (k v : String) : ∀ ctx : List (String × String),
    ctx.any (fun p => decide (p.1 = k)) = true →
    (ctx.map (fun p => if p.1 = k then (k, v) else p)).lookup k = some v := by
  intro ctx
  induction ctx with
  | nil => intro h; simp at h
  | cons q qs ih =>
    intro h
    obtain ⟨q1, q2⟩ := q
    rw [List.any_cons] at h
    simp only [List.map_cons]
    by_cases hq : q1 = k
    · subst hq
      rw [if_pos rfl]
      exact lookup_cons_self q1 v _
    · rw [if_neg hq, lookup_cons_ne k q1 q2 _ (fun hh => hq hh.symm)]
      apply ih
      simpa [hq] using h

theorem lookup_append_new (k v : String) : ∀ ctx : List (String × String),
    ctx.any (fun p => decide (p.1 = k)) = false →
    (ctx ++ [(k, v)]).lookup k = some v := by
  intro ctx
  induction ctx with
  | nil => intro _; simp [List.lookup]
  | cons q qs ih =>
    intro h
    obtain ⟨q1, q2⟩ := q
    rw [List.any_cons] at h
    rcases Bool.or_eq_false_iff.mp h with ⟨h1, h2⟩
    have hq : q1 ≠ k := by simpa using h1
    rw [List.cons_append, lookup_cons_ne k q1 q2 _ (fun hh => hq hh.symm)]
    exact ih h2

/-- Amended C8: on step success the step's outputs are merged into
`dag.context` with Python `dict.update` semantics — a key that is already
present is silently overwritten (last writer wins); no collision error is
raised anywhere. -/
theorem context_update_overwrites (ctx : List (String × String)) (k v : String) :
    (dictUpdate ctx [(k, v)]).lookup k = some v := by
  show (dictSet ctx k v).lookup k = some v
  unfold dictSet
  by_cases h : ctx.any (fun p => decide (p.1 = k)) = true
  · rw [if_pos h]
    exact lookup_map_set k v ctx h
  · rw [if_neg h]
    exact lookup_append_new k v ctx (Bool.eq_false_iff.mpr h)

/-! ## Retry loop of `WorkflowEngine._execute_node` (claim C4)

`_execute_node` invokes the node body; on an exception it increments
`node.retry_count`, sleeps `2 ** node.retry_count` seconds and recurses
while `retry_count < max_retries` held before the increment, re-raising
once retries are exhausted.  The body is abstracted as `body n`, telling
whether the invocation made with `retry_count = n` succeeds.  The recursion
is driven by the remaining budget `max_retries - retry_count`, which is
positive exactly when the source guard `retry_count < max_retries` holds. -/

/-- Observable trace of one `_execute_node` call: whether it ultimately
succeeded, how many times the body was invoked, and the sleeps performed
between consecutive attempts (in seconds). -/
structure NodeRun where
  success : Bool
  attempts : ℕ
  delays : List ℕ
  deriving DecidableEq, Repr

/-- The retry recursion of `_execute_node`, at current `retry_count` with
`budget = max_retries - retry_count` retries left. -/
def execute_node_go (body : ℕ → Bool) : ℕ → ℕ → NodeRun
  | retry_count, 0 =>
    if body retry_count then { success := true, attempts := 1, delays := [] }
    else { success := false, attempts := 1, delays := [] }
  | retry_count, budget + 1 =>
    if body retry_count then { success := true, attempts := 1, delays := [] }
    else
      let rest := execute_node_go body (retry_count + 1) budget
      { success := rest.success, attempts := rest.attempts + 1,
        delays := 2 ^ (retry_count + 1) :: rest.delays }

/-- A full `_execute_node` call: `retry_count` starts at 0, so the budget is
the node's `max_retries`. -/
def execute_node_run (body : ℕ → Bool) (max_retries : ℕ) : NodeRun :=
  execute_node_go body 0 max_retries

theorem execute_node_go_spec (body : ℕ → Bool) :
    ∀ budget retry_count, ∃ m ≤ budget,
      (execute_node_go body retry_count budget).delays =
        (List.range m).map (fun i => 2 ^ (retry_count + 1 + i)) ∧
      (execute_node_go body retry_count budget).attempts = m + 1 := by
  intro budget
  induction budget with
  | zero =>
    intro rc
    refine ⟨0, le_refl 0, ?_, ?_⟩ <;>
      by_cases h : body rc <;> simp [execute_node_go, h]
  | succ b ih =>
    intro rc
    by_cases h : body rc
    · exact ⟨0, Nat.zero_le _, by simp [execute_node_go, h],
        by simp [execute_node_go, h]⟩
    · obtain ⟨m, hm, hd, ha⟩ := ih (rc + 1)
      have hstep : execute_node_go body rc (b + 1) =
          { success := (execute_node_go body (rc + 1) b).success
          , attempts := (execute_node_go body (rc + 1) b).attempts + 1
          , delays := 2 ^ (rc + 1) :: (execute_node_go body (rc + 1) b).delays } := by
        simp [execute_node_go, h]
      refine ⟨m + 1, by omega, ?_, ?_⟩
      · rw [hstep]
        show 2 ^ (rc + 1) :: (execute_node_go body (rc + 1) b).delays = _
        rw [hd, List.range_succ_eq_map, List.map_cons, List.map_map]
        congr 1
        apply List.map_congr_left
        intro a ha
        show (2:ℕ) ^ (rc + 1 + 1 + a) = 2 ^ (rc + 1 + (a + 1))
        exact congrArg (fun e : ℕ => (2:ℕ) ^ e) (by omega)
      · rw [hstep]
        show (execute_node_go body (rc + 1) b).attempts + 1 = m + 1 + 1
        rw [ha]

theorem chain_lt_pow_range (c m : ℕ) :
    List.Chain' (· < ·) ((List.range m).map (fun i => 2 ^ (c + 1 + i))) := by
  apply List.Pairwise.chain'
  have hp : List.Pairwise (· < ·) (List.range m) := List.pairwise_lt_range m
  exact hp.map _ (fun a b hab => Nat.pow_lt_pow_right (by norm_num) (by omega))

/-- Claim C4: a step whose per-step `max_retries` is `k` has its body
invoked at most `k + 1` times before `_execute_node` re-raises (terminal
FAILED), and the backoff sleeps between consecutive attempts are strictly
increasing and follow `base_delay * 2^n` growth with `base_delay = 2`
seconds (2s, 4s, 8s, …). -/
theorem execute_node_retry_bound (body : ℕ → Bool) (k : ℕ) :
    (execute_node_run body k).attempts ≤ k + 1 ∧
    List.Chain' (· < ·) (execute_node_run body k).delays ∧
    ∃ m, (execute_node_run body k).delays =
      (List.range m).map (fun i => 2 * 2 ^ i) := by
  obtain ⟨m, hm, hd, ha⟩ := execute_node_go_spec body k 0
  have hrun : execute_node_run body k = execute_node_go body 0 k := rfl
  have hpow : ∀ a ∈ List.range m, 2 ^ (0 + 1 + a) = 2 * 2 ^ a := by
    intro a _
    rw [show 0 + 1 + a = a + 1 from by omega, pow_succ]
    ring
  refine ⟨?_, ?_, ⟨m, ?_⟩⟩
  · rw [hrun, ha]; omega
  · rw [hrun, hd]; exact chain_lt_pow_range 0 m
  · rw [hrun, hd]
    exact List.map_congr_left hpow

/-! ## Incremental statistics: `PerformanceTracker._update_agent_metrics`
(claim C5) -/

/-- The per-(agent, task_type) metrics dict maintained in
`agent.configuration['performance_metrics']`. -/
structure TaskMetrics where
  total_executions : ℕ
  successful_executions : ℕ
  avg_execution_time : ℚ
  avg_accuracy : ℚ
  deriving DecidableEq, Repr

/-- One call to `_update_agent_metrics`: increment counts and update the
running averages, `avg' = (avg * (n - 1) + x) / n` with `n` the
post-increment total count; the accuracy average is only touched when an
accuracy was provided. -/
def update_agent_metrics (m : TaskMetrics) (execution_time : ℚ) (success : Bool)
    (accuracy : Option ℚ) : TaskMetrics :=
  let total := m.total_executions + 1
  let n : ℚ := (total : ℚ)
  { total_executions := total
  , successful_executions :=
      if success then m.successful_executions + 1 else m.successful_executions
  , avg_execution_time := (m.avg_execution_time * (n - 1) + execution_time) / n
  , avg_accuracy :=
      match accuracy with
      | some a => (m.avg_accuracy * (n - 1) + a) / n
      | none => m.avg_accuracy }

/-- One recorded execution, as passed to `_update_agent_metrics`. -/
structure RecordedSample where
  execution_time : ℚ
  success : Bool
  accuracy : Option ℚ

/-- The default metrics dict for a (agent, task_type) pair never seen
before. -/
def initialTaskMetrics : TaskMetrics :=
  { total_executions := 0, successful_executions := 0
  , avg_execution_time := 0, avg_accuracy := 0 }

/-- Record a sequence of samples, starting from the default metrics. -/
def record_samples (samples : List RecordedSample) : TaskMetrics :=
  samples.foldl
    (fun m s => update_agent_metrics m s.execution_time s.success s.accuracy)
    initialTaskMetrics

theorem record_foldl_invariant (samples : List RecordedSample) :
    ∀ m : TaskMetrics,
      (samples.foldl
        (fun m s => update_agent_metrics m s.execution_time s.success s.accuracy)
        m).total_executions = m.total_executions + samples.length ∧
      (samples.foldl
        (fun m s => update_agent_metrics m s.execution_time s.success s.accuracy)
        m).avg_execution_time * ((m.total_executions + samples.length : ℕ) : ℚ) =
        m.avg_execution_time * (m.total_executions : ℚ) +
          (samples.map (fun s => s.execution_time)).sum := by
  induction samples with
  | nil => intro m; simp
  | cons s t ih =>
    intro m
    rw [List.foldl_cons]
    obtain ⟨h1, h2⟩ :=
      ih (update_agent_metrics m s.execution_time s.success s.accuracy)
    have hupd_total :
        (update_agent_metrics m s.execution_time s.success s.accuracy).total_executions
          = m.total_executions + 1 := rfl
    constructor
    · rw [h1, hupd_total, List.length_cons]
      omega
    · have hn : ((m.total_executions + 1 : ℕ) : ℚ) ≠ 0 := by
        push_cast
        positivity
      have hupd_avg :
          (update_agent_metrics m s.execution_time s.success s.accuracy).avg_execution_time
              * ((m.total_executions + 1 : ℕ) : ℚ) =
            m.avg_execution_time * (m.total_executions : ℚ) + s.execution_time := by
        show (m.avg_execution_time * (((m.total_executions + 1 : ℕ) : ℚ) - 1)
            + s.execution_time) / ((m.total_executions + 1 : ℕ) : ℚ)
            * ((m.total_executions + 1 : ℕ) : ℚ) = _
        rw [div_mul_cancel₀ _ hn]
        push_cast
        ring
      have harg : m.total_executions + (s :: t).length =
          (update_agent_metrics m s.execution_time s.success s.accuracy).total_executions
            + t.length := by
        rw [hupd_total, List.length_cons]
        omega
      rw [harg, h2, hupd_total, hupd_avg, List.map_cons, List.sum_cons]
      ring

/-- Claim C5: after recording any finite sequence of samples, the
incrementally maintained average execution time equals the arithmetic mean
`sum(samples) / n` of all samples recorded (exactly, over ℚ). -/
theorem incremental_mean_correct (samples : List RecordedSample) :
    (record_samples samples).avg_execution_time =
      (samples.map (fun s => s.execution_time)).sum / (samples.length : ℚ) := by
  obtain ⟨h1, h2⟩ := record_foldl_invariant samples initialTaskMetrics
  cases samples with
  | nil => simp [record_samples, initialTaskMetrics]
  | cons s t =>
    have hlen : (((s :: t).length : ℕ) : ℚ) ≠ 0 := by
      rw [Nat.cast_ne_zero]
      simp
    rw [eq_div_iff hlen]
    show (record_samples (s :: t)).avg_execution_time * (((s :: t).length : ℕ) : ℚ)
      = ((s :: t).map (fun s => s.execution_time)).sum
    have h2' := h2
    simp only [initialTaskMetrics] at h2'
    simpa [record_samples, initialTaskMetrics] using h2'

/-! ## Executor selection: `agent_selector.py` (claims C6, C7, C10)

Floats are rationals; the Django queryset in `_get_available_agents` is a
filter over the registered-agent list; `performance_data` carries the values
`_score_performance` reads out of `get_agent_performance` (defaults already
applied), `none` when no history exists. -/

/-- `AgentType` choices from `agents/models.py`. -/
inductive AgentType where
  | ORCHESTRATOR
  | VISION
  | REASONING
  | ACTION
  | MEMORY
  | CUSTOM
  deriving DecidableEq, Repr

/-- `AgentStatus` choices from `agents/models.py`. -/
inductive AgentStatus where
  | IDLE
  | ACTIVE
  | PROCESSING
  | ERROR
  | OFFLINE
  deriving DecidableEq, Repr

/-- The fields of the performance dict that `_score_performance` reads
(`success_rate`, `avg_response_time`, `accuracy`), with the `.get`
defaults already applied. -/
structure PerformanceData where
  success_rate : ℚ
  avg_response_time : ℚ
  accuracy : ℚ
  deriving DecidableEq, Repr

/-- The fields of `agent.configuration` that `_score_requirements` reads,
with the `.get` defaults already applied. -/
structure AgentConfig where
  accuracy : ℚ
  avg_response_time : ℚ
  features : List String
  deriving DecidableEq, Repr

/-- The requirement keys `_score_requirements` inspects. -/
structure Requirements where
  min_accuracy : Option ℚ
  max_response_time : Option ℚ
  required_features : Option (List String)
  deriving DecidableEq, Repr

/-- An empty requirements dict. -/
def noRequirements : Requirements :=
  { min_accuracy := none, max_response_time := none, required_features := none }

/-- A registered agent, restricted to the fields the selector reads. -/
structure Agent where
  id : String
  type : AgentType
  status : AgentStatus
  is_active : Bool
  capabilities : List String
  performance_data : Option PerformanceData
  configuration : AgentConfig
  deriving DecidableEq, Repr

/-- Python's `str.lower()`, character-wise (ASCII case folding; all the
task-type and capability strings involved are ASCII).  Defined through the
character list so that it computes by kernel reduction. -/
def pyLower (s : String) : String :=
  String.mk (s.data.map Char.toLower)

/-- Python's `needle in hay` on strings: substring test. -/
def str_contains (needle hay : String) : Bool :=
  decide (needle.toList <:+: hay.toList)

/-- Python's `str.split()` with no argument: split on whitespace runs,
dropping empty pieces. -/
def pysplit (s : String) : List String :=
  (s.split (fun c => c.isWhitespace)).filter (fun w => !w.isEmpty)

/-- `SmartAgentSelector._score_capabilities`. -/
def score_capabilities (capabilities : List String)
    (task_type task_description : String) : ℚ :=
  if capabilities.isEmpty then 0
  else
    let exact_matches := (capabilities.filter
      (fun cap => str_contains (pyLower task_type) (pyLower cap))).length
    let keyword_matches := (capabilities.filter
      (fun cap => (pysplit (pyLower cap)).any
        (fun word => str_contains word (pyLower task_description)))).length
    let total_capabilities := capabilities.length
    let exact_score : ℚ := (exact_matches : ℚ) / ((max total_capabilities 1 : ℕ) : ℚ)
    let keyword_score : ℚ := (keyword_matches : ℚ) / ((max total_capabilities 1 : ℕ) : ℚ)
    min (exact_score * (7/10) + keyword_score * (3/10)) 1

/-- `SmartAgentSelector._score_performance`; `none` is the no-history cold
start (0.5).  The `except` fallback (also 0.5) concerns database errors and
is outside the model. -/
def score_performance (performance_data : Option PerformanceData) : ℚ :=
  match performance_data with
  | none => 1/2
  | some d =>
    let response_time_score := max 0 (1 - d.avg_response_time / 10)
    min (d.success_rate * (4/10) + response_time_score * (3/10)
      + d.accuracy * (3/10)) 1

/-- `SmartAgentSelector._score_availability`. -/
def score_availability (status : AgentStatus) : ℚ :=
  match status with
  | AgentStatus.IDLE => 1
  | AgentStatus.ACTIVE => 7/10
  | AgentStatus.PROCESSING => 3/10
  | AgentStatus.ERROR => 0
  | AgentStatus.OFFLINE => 0

/-- `SmartAgentSelector._score_requirements`.  `set(required) - set(features)`
is the deduplicated required list minus the feature list; the divisor is
`len(required_features)`, the raw list length, as in the source. -/
def score_requirements (config : AgentConfig) (requirements : Requirements) : ℚ :=
  if requirements.min_accuracy.isNone ∧ requirements.max_response_time.isNone ∧
      requirements.required_features.isNone then 1
  else
    let s1 : ℚ := 1
    let s2 := match requirements.min_accuracy with
      | some min_acc => if config.accuracy < min_acc then s1 * (1/2) else s1
      | none => s1
    let s3 := match requirements.max_response_time with
      | some max_rt => if config.avg_response_time > max_rt then s2 * (1/2) else s2
      | none => s2
    let s4 := match requirements.required_features with
      | some required =>
        let missing := (required.dedup.filter
          (fun x => !(config.features.contains x))).length
        if missing ≠ 0 then s3 * (1 - (missing : ℚ) / (required.length : ℚ))
        else s3
      | none => s3
    max s4 0

/-- The weighted combination (and final clamp) of
`SmartAgentSelector._calculate_agent_score`. -/
def total_score (capability_score performance_score availability_score
    requirements_score : ℚ) : ℚ :=
  min (capability_score * (4/10) + performance_score * (3/10)
    + availability_score * (2/10) + requirements_score * (1/10)) 1

/-- `SmartAgentSelector._calculate_agent_score`. -/
def calculate_agent_score (agent : Agent) (task_type task_description : String)
    (requirements : Requirements) : ℚ :=
  total_score
    (score_capabilities agent.capabilities task_type task_description)
    (score_performance agent.performance_data)
    (score_availability agent.status)
    (score_requirements agent.configuration requirements)

theorem score_capabilities_bounds (capabilities : List String)
    (task_type task_description : String) :
    0 ≤ score_capabilities capabilities task_type task_description ∧
    score_capabilities capabilities task_type task_description ≤ 1 := by
  unfold score_capabilities
  by_cases h : capabilities.isEmpty
  · rw [if_pos h]
    norm_num
  · rw [if_neg h]
    refine ⟨le_min ?_ (by norm_num), min_le_right _ _⟩
    positivity

theorem score_performance_bounds (performance_data : Option PerformanceData)
    (h : ∀ d, performance_data = some d → 0 ≤ d.success_rate ∧ 0 ≤ d.accuracy) :
    0 ≤ score_performance performance_data ∧
    score_performance performance_data ≤ 1 := by
  cases performance_data with
  | none => norm_num [score_performance]
  | some d =>
    obtain ⟨hs, ha⟩ := h d rfl
    unfold score_performance
    refine ⟨le_min ?_ (by norm_num), min_le_right _ _⟩
    have hrt : (0:ℚ) ≤ max 0 (1 - d.avg_response_time / 10) := le_max_left _ _
    positivity

theorem score_availability_bounds (status : AgentStatus) :
    0 ≤ score_availability status ∧ score_availability status ≤ 1 := by
  cases status <;> norm_num [score_availability]

theorem score_requirements_bounds (config : AgentConfig)
    (requirements : Requirements) :
    0 ≤ score_requirements config requirements ∧
    score_requirements config requirements ≤ 1 := by
  unfold score_requirements
  by_cases hempty : requirements.min_accuracy.isNone ∧
      requirements.max_response_time.isNone ∧
      requirements.required_features.isNone
  · rw [if_pos hempty]
    norm_num
  · rw [if_neg hempty]
    have h2 : ∀ s : ℚ, 0 ≤ s → s ≤ 1 →
        0 ≤ (match requirements.min_accuracy with
          | some min_acc => if config.accuracy < min_acc then s * (1/2) else s
          | none => s) ∧
        (match requirements.min_accuracy with
          | some min_acc => if config.accuracy < min_acc then s * (1/2) else s
          | none => s) ≤ 1 := by
      intro s h0 h1
      cases requirements.min_accuracy with
      | none => exact ⟨h0, h1⟩
      | some min_acc =>
        show 0 ≤ (if config.accuracy < min_acc then s * (1/2) else s) ∧
          (if config.accuracy < min_acc then s * (1/2) else s) ≤ 1
        by_cases hlt : config.accuracy < min_acc
        · rw [if_pos hlt]
          constructor <;> nlinarith
        · rw [if_neg hlt]
          exact ⟨h0, h1⟩
    have h3 : ∀ s : ℚ, 0 ≤ s → s ≤ 1 →
        0 ≤ (match requirements.max_response_time with
          | some max_rt => if config.avg_response_time > max_rt then s * (1/2) else s
          | none => s) ∧
        (match requirements.max_response_time with
          | some max_rt => if config.avg_response_time > max_rt then s * (1/2) else s
          | none => s) ≤ 1 := by
      intro s h0 h1
      cases requirements.max_response_time with
      | none => exact ⟨h0, h1⟩
      | some max_rt =>
        show 0 ≤ (if config.avg_response_time > max_rt then s * (1/2) else s) ∧
          (if config.avg_response_time > max_rt then s * (1/2) else s) ≤ 1
        by_cases hlt : config.avg_response_time > max_rt
        · rw [if_pos hlt]
          constructor <;> nlinarith
        · rw [if_neg hlt]
          exact ⟨h0, h1⟩
    have h4 : ∀ s : ℚ, 0 ≤ s → s ≤ 1 →
        0 ≤ (match requirements.required_features with
          | some required =>
            if ((required.dedup.filter
                (fun x => !(config.features.contains x))).length ≠ 0) then
              s * (1 - ((required.dedup.filter
                (fun x => !(config.features.contains x))).length : ℚ)
                  / (required.length : ℚ))
            else s
          | none => s) ∧
        (match requirements.required_features with
          | some required =>
            if ((required.dedup.filter
                (fun x => !(config.features.contains x))).length ≠ 0) then
              s * (1 - ((required.dedup.filter
                (fun x => !(config.features.contains x))).length : ℚ)
                  / (required.length : ℚ))
            else s
          | none => s) ≤ 1 := by
      intro s h0 h1
      cases requirements.required_features with
      | none => exact ⟨h0, h1⟩
      | some required =>
        show 0 ≤ (if ((required.dedup.filter
              (fun x => !(config.features.contains x))).length ≠ 0) then
            s * (1 - ((required.dedup.filter
              (fun x => !(config.features.contains x))).length : ℚ)
                / (required.length : ℚ))
          else s) ∧
          (if ((required.dedup.filter
              (fun x => !(config.features.contains x))).length ≠ 0) then
            s * (1 - ((required.dedup.filter
              (fun x => !(config.features.contains x))).length : ℚ)
                / (required.length : ℚ))
          else s) ≤ 1
        set miss := (required.dedup.filter
          (fun x => !(config.features.contains x))).length with hmiss
        by_cases hne : miss ≠ 0
        · rw [if_pos hne]
          have hmle : miss ≤ required.length := by
            calc miss ≤ required.dedup.length := by
                  rw [hmiss]; exact List.length_filter_le _ _
              _ ≤ required.length := (List.dedup_sublist required).length_le
          have hpos : 0 < required.length := by omega
          have hposq : (0:ℚ) < (required.length : ℚ) := by
            exact_mod_cast hpos
          have hfac0 : (0:ℚ) ≤ 1 - (miss : ℚ) / (required.length : ℚ) := by
            rw [sub_nonneg, div_le_one hposq]
            exact_mod_cast hmle
          have hfac1 : 1 - (miss : ℚ) / (required.length : ℚ) ≤ 1 := by
            have : (0:ℚ) ≤ (miss : ℚ) / (required.length : ℚ) :=
              div_nonneg (by positivity) (le_of_lt hposq)
            linarith
          constructor
          · exact mul_nonneg h0 hfac0
          · calc s * (1 - (miss : ℚ) / (required.length : ℚ)) ≤ 1 * 1 :=
                mul_le_mul h1 hfac1 hfac0 (by norm_num)
            _ = 1 := by norm_num
        · rw [if_neg hne]
          exact ⟨h0, h1⟩
    obtain ⟨h2a, h2b⟩ := h2 1 (by norm_num) (by norm_num)
    obtain ⟨h3a, h3b⟩ := h3 _ h2a h2b
    obtain ⟨h4a, h4b⟩ := h4 _ h3a h3b
    exact ⟨le_max_right _ _, max_le h4b (by norm_num)⟩

theorem total_score_bounds (a b c d : ℚ)
    (ha : 0 ≤ a) (hb : 0 ≤ b) (hc : 0 ≤ c) (hd : 0 ≤ d) :
    0 ≤ total_score a b c d ∧ total_score a b c d ≤ 1 := by
  unfold total_score
  refine ⟨le_min (by positivity) (by norm_num), min_le_right _ _⟩

/-- Claim C6: the selector's total score always lies in [0, 1] (the
performance record, when present, carries a nonnegative success rate and
accuracy — both hold for tracker-produced data), and the weighted
combination is monotone: raising any one sub-score while holding the other
three fixed never lowers the total. -/
theorem agent_score_bounded_and_monotone (agent : Agent)
    (task_type task_description : String) (requirements : Requirements)
    (hperf : ∀ d, agent.performance_data = some d →
      0 ≤ d.success_rate ∧ 0 ≤ d.accuracy) :
    (0 ≤ calculate_agent_score agent task_type task_description requirements ∧
      calculate_agent_score agent task_type task_description requirements ≤ 1) ∧
    (∀ a b c d a' b' c' d' : ℚ, a ≤ a' → b ≤ b' → c ≤ c' → d ≤ d' →
      total_score a b c d ≤ total_score a' b' c' d') := by
  constructor
  · unfold calculate_agent_score
    obtain ⟨hc0, hc1⟩ :=
      score_capabilities_bounds agent.capabilities task_type task_description
    obtain ⟨hp0, hp1⟩ := score_performance_bounds agent.performance_data hperf
    obtain ⟨ha0, ha1⟩ := score_availability_bounds agent.status
    obtain ⟨hr0, hr1⟩ := score_requirements_bounds agent.configuration requirements
    exact total_score_bounds _ _ _ _ hc0 hp0 ha0 hr0
  · intro a b c d a' b' c' d' h1 h2 h3 h4
    unfold total_score
    apply min_le_min _ le_rfl
    have hsum : a * (4/10) + b * (3/10) + c * (2/10) + d * (1/10) ≤
        a' * (4/10) + b' * (3/10) + c' * (2/10) + d' * (1/10) := by
      nlinarith
    exact hsum

/-- A concrete performance record used in witnesses. -/
def perfW : PerformanceData :=
  { success_rate := 9/10, avg_response_time := 2, accuracy := 4/5 }

/-- A concrete healthy reasoning agent, used in witnesses. -/
def agentW : Agent :=
  { id := "agent-1"
  , type := AgentType.REASONING
  , status := AgentStatus.IDLE
  , is_active := true
  , capabilities := ["text analysis"]
  , performance_data := some perfW
  , configuration := { accuracy := 1/2, avg_response_time := 5, features := [] } }

/-- Witness for C6 at a concrete agent and input. -/
theorem agent_score_bounded_and_monotone_witness :
    (0 ≤ calculate_agent_score agentW "text" "analyze the text" noRequirements ∧
      calculate_agent_score agentW "text" "analyze the text" noRequirements ≤ 1) ∧
    (∀ a b c d a' b' c' d' : ℚ, a ≤ a' → b ≤ b' → c ≤ c' → d ≤ d' →
      total_score a b c d ≤ total_score a' b' c' d') :=
  agent_score_bounded_and_monotone agentW "text" "analyze the text" noRequirements
    (fun d hd => by
      have hd' : some perfW = some d := hd
      cases hd'
      exact ⟨by norm_num [perfW], by norm_num [perfW]⟩)

/-- The literal `task_to_agent_mapping` dict of
`SmartAgentSelector._get_available_agents`, as a lookup with default `[]`. -/
def task_to_agent_mapping (task_type : String) : List AgentType :=
  if task_type = "text" then [AgentType.REASONING, AgentType.ORCHESTRATOR]
  else if task_type = "vision" then [AgentType.VISION]
  else if task_type = "image" then [AgentType.VISION]
  else if task_type = "reasoning" then [AgentType.REASONING]
  else if task_type = "logic" then [AgentType.REASONING]
  else if task_type = "action" then [AgentType.ACTION]
  else if task_type = "execution" then [AgentType.ACTION]
  else if task_type = "memory" then [AgentType.MEMORY]
  else if task_type = "storage" then [AgentType.MEMORY]
  else if task_type = "orchestration" then [AgentType.ORCHESTRATOR]
  else if task_type = "coordination" then [AgentType.ORCHESTRATOR]
  else []

/-- `SmartAgentSelector._get_available_agents`: the Django query
`type__in=suitable_agent_types, status__in=[IDLE, ACTIVE], is_active=True`
minus the excluded ids, over the registered agents. -/
def get_available_agents (agents : List Agent) (task_type : String)
    (exclude_agents : List String) : List Agent :=
  let suitable_agent_types := task_to_agent_mapping (pyLower task_type)
  agents.filter (fun a =>
    suitable_agent_types.contains a.type &&
    (a.status == AgentStatus.IDLE || a.status == AgentStatus.ACTIVE) &&
    a.is_active && !(exclude_agents.contains a.id))

/-- `SmartAgentSelector.select_best_agent`: `None` when no agent is
available; otherwise the top-scored agent.  The source sorts the scored
list descending (Python's stable sort) and takes the head: that is the
first agent attaining the maximal score, which the fold computes. -/
def select_best_agent (agents : List Agent) (task_type task_description : String)
    (requirements : Requirements) (exclude_agents : List String) : Option Agent :=
  match get_available_agents agents task_type exclude_agents with
  | [] => none
  | a :: rest =>
    some (rest.foldl (fun best x =>
      if calculate_agent_score x task_type task_description requirements >
          calculate_agent_score best task_type task_description requirements
      then x else best) a)

/-- Counterexample for C7: with only a reasoning agent registered, asking
for task type "vision" makes `select_best_agent` return `None` — a silent
empty result; the function's return contract (`Optional[Agent]`) has no
error channel and no `NoSuitableExecutorError` exists in the code. -/
theorem no_suitable_agent_returns_none_counterexample :
    get_available_agents [agentW] "vision" [] = [] ∧
    select_best_agent [agentW] "vision" "analyze the image" noRequirements [] =
      none := by
  constructor <;> decide

/-- Amended C7: when no registered executor can handle the requested task
type, `select_best_agent` returns `None` (after logging a warning) instead
of raising; no `NoSuitableExecutorError` exists. -/
theorem no_suitable_agent_returns_none (agents : List Agent)
    (task_type task_description : String) (requirements : Requirements)
    (exclude_agents : List String)
    (h : get_available_agents agents task_type exclude_agents = []) :
    select_best_agent agents task_type task_description requirements
      exclude_agents = none := by
  unfold select_best_agent
  rw [h]

/-- Witness for amended C7. -/
theorem no_suitable_agent_returns_none_witness :
    select_best_agent [agentW] "vision" "analyze the image" noRequirements [] =
      none :=
  no_suitable_agent_returns_none [agentW] "vision" "analyze the image"
    noRequirements [] (by decide)

/-- A vision agent, idle and active. -/
def visionAgent : Agent :=
  { id := "agent-v"
  , type := AgentType.VISION
  , status := AgentStatus.IDLE
  , is_active := true
  , capabilities := ["vision"]
  , performance_data := none
  , configuration := { accuracy := 1, avg_response_time := 5, features := [] } }

/-- Counterexample for C10: the task type "Vision" is outside the literal
key set of the mapping, yet — because the lookup happens on
`task_type.lower()` — a registered vision agent is returned and selected,
contradicting the claim that any task type outside the key set yields no
agents regardless of registration. -/
theorem task_type_case_insensitive_counterexample :
    ("Vision" ∉ ["text", "vision", "image", "reasoning", "logic", "action",
      "execution", "memory", "storage", "orchestration", "coordination"]) ∧
    get_available_agents [visionAgent] "Vision" [] = [visionAgent] ∧
    select_best_agent [visionAgent] "Vision" "look at the image"
      noRequirements [] = some visionAgent := by
  refine ⟨by decide, by decide, by decide⟩

/-- Amended C10: candidate filtering is a closed enumeration over the
lowercased task type: whenever `task_type.lower()` is outside the fixed
key set, the available-agent set is empty and selection returns no agent,
regardless of the registered agents and their capability tags. -/
theorem unknown_task_type_no_agents (agents : List Agent)
    (task_type task_description : String) (requirements : Requirements)
    (exclude_agents : List String)
    (h : pyLower task_type ∉ ["text", "vision", "image", "reasoning", "logic",
      "action", "execution", "memory", "storage", "orchestration",
      "coordination"]) :
    get_available_agents agents task_type exclude_agents = [] ∧
    select_best_agent agents task_type task_description requirements
      exclude_agents = none := by
  simp only [List.mem_cons, List.not_mem_nil, or_false, not_or] at h
  obtain ⟨h1, h2, h3, h4, h5, h6, h7, h8, h9, h10, h11⟩ := h
  have hmap : task_to_agent_mapping (pyLower task_type) = [] := by
    unfold task_to_agent_mapping
    rw [if_neg h1, if_neg h2, if_neg h3, if_neg h4, if_neg h5, if_neg h6,
      if_neg h7, if_neg h8, if_neg h9, if_neg h10, if_neg h11]
  have hga : get_available_agents agents task_type exclude_agents = [] := by
    unfold get_available_agents
    rw [hmap]
    apply List.filter_eq_nil_iff.mpr
    intro a _
    simp [List.contains]
  refine ⟨hga, ?_⟩
  unfold select_best_agent
  rw [hga]

/-- Witness for amended C10 at a concrete unknown task type. -/
theorem unknown_task_type_no_agents_witness :
    get_available_agents [visionAgent] "frobnicate" [] = [] ∧
    select_best_agent [visionAgent] "frobnicate" "do something"
      noRequirements [] = none :=
  unknown_task_type_no_agents [visionAgent] "frobnicate" "do something"
    noRequirements [] (by decide)

/-! ## Scheduler loop: `WorkflowOrchestrator._execute_workflow_steps`
(claim C9)

The loop's control state is the pair of id sets `completed_steps` /
`failed_steps` plus `execution.error`; step statuses play no role in loop
control.  `_execute_step` (with its internal retries) either returns or
raises; that is the outcome oracle `outcome : step id ↦ none (success) |
some message (raised after exhausting retries)`.  Awaiting the parallel
tasks is sequentialised in ready-list order, as the source's
`for step_id, task in step_tasks` loop does. -/

/-- A workflow step, restricted to the fields the scheduler loop reads. -/
structure WorkflowStep where
  id : String
  dependencies : List String
  deriving DecidableEq, Repr

/-- The loop state of a `WorkflowExecution`. -/
structure OrchExecution where
  completed_steps : List String
  failed_steps : List String
  error : Option String
  deriving DecidableEq, Repr

/-- `WorkflowOrchestrator._get_ready_steps`: steps not yet settled whose
dependencies are all completed. -/
def get_ready_steps (steps : List WorkflowStep) (completed failed : List String) :
    List String :=
  (steps.filter (fun st =>
    !(completed.contains st.id) && !(failed.contains st.id) &&
    st.dependencies.all (fun dep => completed.contains dep))).map (fun st => st.id)

/-- The `for step_id, task in step_tasks:` result loop: each awaited step is
added to `completed_steps` or `failed_steps`; on a failure with
`retry_failed_steps` disabled the error is recorded and the whole
`_execute_workflow_steps` call returns (`stop = true`). -/
def process_ready (outcome : String → Option String) (retry_failed_steps : Bool) :
    List String → OrchExecution → OrchExecution × Bool
  | [], s => (s, false)
  | step_id :: rest, s =>
    match outcome step_id with
    | none =>
      process_ready outcome retry_failed_steps rest
        { s with completed_steps := s.completed_steps ++ [step_id] }
    | some msg =>
      let s' := { s with failed_steps := s.failed_steps ++ [step_id] }
      if retry_failed_steps then process_ready outcome retry_failed_steps rest s'
      else ({ s' with error := some ("Step " ++ step_id ++ " failed: " ++ msg) },
        true)

/-- The `while len(completed) + len(failed) < len(execution.steps):` loop.
When no step is ready but non-settled steps remain, the deadlock guard
records the blocked error and breaks.  The fuel is structural bookkeeping;
`steps.length + 1` units never run out (proved below), which is the
termination argument for the source loop. -/
def execute_workflow_steps (steps : List WorkflowStep)
    (outcome : String → Option String) (retry_failed_steps : Bool) :
    ℕ → OrchExecution → OrchExecution
  | 0, s => s
  | fuel + 1, s =>
    if s.completed_steps.length + s.failed_steps.length < steps.length then
      if (get_ready_steps steps s.completed_steps s.failed_steps).isEmpty then
        if ((steps.map (fun st => st.id)).filter (fun i =>
            !(s.completed_steps.contains i) &&
            !(s.failed_steps.contains i))).isEmpty then s
        else { s with
          error := some "Workflow execution blocked by failed dependencies" }
      else
        match process_ready outcome retry_failed_steps
            (get_ready_steps steps s.completed_steps s.failed_steps) s with
        | (s', true) => s'
        | (s', false) => execute_workflow_steps steps outcome retry_failed_steps fuel s'
    else s

/-- A full scheduler run on a fresh execution. -/
def orchestrate (steps : List WorkflowStep) (outcome : String → Option String)
    (retry_failed_steps : Bool) : OrchExecution :=
  execute_workflow_steps steps outcome retry_failed_steps (steps.length + 1)
    { completed_steps := [], failed_steps := [], error := none }

/-- The final status computed by `execute_workflow`:
`"completed" if not execution.error else "failed"`. -/
def workflow_status (s : OrchExecution) : String :=
  if s.error.isSome then "failed" else "completed"

/-- Loop invariant: the settled ids are distinct and are ids of actual
steps. -/
def OrchInv (steps : List WorkflowStep) (s : OrchExecution) : Prop :=
  (s.completed_steps ++ s.failed_steps).Nodup ∧
  ∀ x ∈ s.completed_steps ++ s.failed_steps, x ∈ steps.map (fun st => st.id)

theorem mem_settled_completed (s : OrchExecution) (sid x : String) :
    x ∈ (s.completed_steps ++ [sid]) ++ s.failed_steps ↔
      x ∈ s.completed_steps ++ s.failed_steps ∨ x = sid := by
  simp [List.mem_append]
  tauto

theorem mem_settled_failed (s : OrchExecution) (sid x : String) :
    x ∈ s.completed_steps ++ (s.failed_steps ++ [sid]) ↔
      x ∈ s.completed_steps ++ s.failed_steps ∨ x = sid := by
  simp [List.mem_append]
  tauto

theorem nodup_settled_completed (s : OrchExecution) (sid : String)
    (hnd : (s.completed_steps ++ s.failed_steps).Nodup)
    (hni : sid ∉ s.completed_steps ++ s.failed_steps) :
    ((s.completed_steps ++ [sid]) ++ s.failed_steps).Nodup := by
  rw [List.append_assoc, List.singleton_append, List.nodup_middle]
  exact List.nodup_cons.mpr ⟨hni, hnd⟩

theorem nodup_settled_failed (s : OrchExecution) (sid : String)
    (hnd : (s.completed_steps ++ s.failed_steps).Nodup)
    (hni : sid ∉ s.completed_steps ++ s.failed_steps) :
    (s.completed_steps ++ (s.failed_steps ++ [sid])).Nodup := by
  rw [← List.append_assoc, List.nodup_middle, List.append_nil]
  exact List.nodup_cons.mpr ⟨hni, hnd⟩

theorem process_ready_spec (steps : List WorkflowStep)
    (outcome : String → Option String) (retry_failed_steps : Bool) :
    ∀ (l : List String) (s : OrchExecution),
      l.Nodup →
      (∀ x ∈ l, x ∉ s.completed_steps ++ s.failed_steps) →
      (∀ x ∈ l, x ∈ steps.map (fun st => st.id)) →
      OrchInv steps s →
      OrchInv steps (process_ready outcome retry_failed_steps l s).1 ∧
      s.completed_steps.length + s.failed_steps.length +
          (if l.isEmpty then 0 else 1) ≤
        (process_ready outcome retry_failed_steps l s).1.completed_steps.length +
          (process_ready outcome retry_failed_steps l s).1.failed_steps.length ∧
      ((process_ready outcome retry_failed_steps l s).2 = false →
        (process_ready outcome retry_failed_steps l s).1.error = s.error) ∧
      ((process_ready outcome retry_failed_steps l s).2 = true →
        (process_ready outcome retry_failed_steps l s).1.error.isSome ∧
          retry_failed_steps = false) := by
  intro l
  induction l with
  | nil =>
    intro s _ _ _ hinv
    exact ⟨hinv, by simp [process_ready], fun _ => rfl, by simp [process_ready]⟩
  | cons sid rest ih =>
    intro s hnd hfresh hids hinv
    have hsid_fresh : sid ∉ s.completed_steps ++ s.failed_steps :=
      hfresh sid (List.mem_cons_self _ _)
    have hsid_ids : sid ∈ steps.map (fun st => st.id) :=
      hids sid (List.mem_cons_self _ _)
    have hrest_nd : rest.Nodup := (List.nodup_cons.mp hnd).2
    have hsid_rest : sid ∉ rest := (List.nodup_cons.mp hnd).1
    cases hout : outcome sid with
    | none =>
      have hred : process_ready outcome retry_failed_steps (sid :: rest) s =
          process_ready outcome retry_failed_steps rest
            { s with completed_steps := s.completed_steps ++ [sid] } := by
        simp [process_ready, hout]
      set s1 : OrchExecution := { s with completed_steps := s.completed_steps ++ [sid] }
        with hs1
      have hinv1 : OrchInv steps s1 := by
        constructor
        · exact nodup_settled_completed s sid hinv.1 hsid_fresh
        · intro x hx
          rcases (mem_settled_completed s sid x).mp hx with h | h
          · exact hinv.2 x h
          · subst h; exact hsid_ids
      have hfresh1 : ∀ x ∈ rest, x ∉ s1.completed_steps ++ s1.failed_steps := by
        intro x hx hmem
        rcases (mem_settled_completed s sid x).mp hmem with h | h
        · exact hfresh x (List.mem_cons_of_mem _ hx) h
        · subst h; exact hsid_rest hx
      have hids1 : ∀ x ∈ rest, x ∈ steps.map (fun st => st.id) :=
        fun x hx => hids x (List.mem_cons_of_mem _ hx)
      obtain ⟨hI, hG, hE, hS⟩ := ih s1 hrest_nd hfresh1 hids1 hinv1
      rw [hred]
      refine ⟨hI, ?_, hE, hS⟩
      have hlen1 : s1.completed_steps.length + s1.failed_steps.length =
          s.completed_steps.length + s.failed_steps.length + 1 := by
        simp [hs1]
        omega
      have hG2 : s1.completed_steps.length + s1.failed_steps.length ≤
          (process_ready outcome retry_failed_steps rest s1).1.completed_steps.length +
            (process_ready outcome retry_failed_steps rest s1).1.failed_steps.length := by
        by_cases hre : rest.isEmpty = true <;> simp [hre] at hG <;> omega
      rw [if_neg (by simp)]
      omega
    | some msg =>
      by_cases hretry : retry_failed_steps
      · have hred : process_ready outcome retry_failed_steps (sid :: rest) s =
            process_ready outcome retry_failed_steps rest
              { s with failed_steps := s.failed_steps ++ [sid] } := by
          simp [process_ready, hout, hretry]
        set s1 : OrchExecution := { s with failed_steps := s.failed_steps ++ [sid] }
          with hs1
        have hinv1 : OrchInv steps s1 := by
          constructor
          · exact nodup_settled_failed s sid hinv.1 hsid_fresh
          · intro x hx
            rcases (mem_settled_failed s sid x).mp hx with h | h
            · exact hinv.2 x h
            · subst h; exact hsid_ids
        have hfresh1 : ∀ x ∈ rest, x ∉ s1.completed_steps ++ s1.failed_steps := by
          intro x hx hmem
          rcases (mem_settled_failed s sid x).mp hmem with h | h
          · exact hfresh x (List.mem_cons_of_mem _ hx) h
          · subst h; exact hsid_rest hx
        have hids1 : ∀ x ∈ rest, x ∈ steps.map (fun st => st.id) :=
          fun x hx => hids x (List.mem_cons_of_mem _ hx)
        obtain ⟨hI, hG, hE, hS⟩ := ih s1 hrest_nd hfresh1 hids1 hinv1
        rw [hred]
        refine ⟨hI, ?_, hE, hS⟩
        have hlen1 : s1.completed_steps.length + s1.failed_steps.length =
            s.completed_steps.length + s.failed_steps.length + 1 := by
          simp [hs1]
          omega
        have hG2 : s1.completed_steps.length + s1.failed_steps.length ≤
            (process_ready outcome retry_failed_steps rest s1).1.completed_steps.length +
              (process_ready outcome retry_failed_steps rest s1).1.failed_steps.length := by
          by_cases hre : rest.isEmpty = true <;> simp [hre] at hG <;> omega
        rw [if_neg (by simp)]
        omega
      · have hred : process_ready outcome retry_failed_steps (sid :: rest) s =
            ({ completed_steps := s.completed_steps
             , failed_steps := s.failed_steps ++ [sid]
             , error := some ("Step " ++ sid ++ " failed: " ++ msg) }, true) := by
          simp [process_ready, hout, hretry]
        rw [hred]
        refine ⟨?_, ?_, ?_, ?_⟩
        · constructor
          · exact nodup_settled_failed s sid hinv.1 hsid_fresh
          · intro x hx
            rcases (mem_settled_failed s sid x).mp hx with h | h
            · exact hinv.2 x h
            · subst h; exact hsid_ids
        · rw [if_neg (by simp)]
          simp
          omega
        · intro h; cases h
        · intro _
          refine ⟨rfl, ?_⟩
          simpa using hretry

theorem settled_covers (steps : List WorkflowStep) (s : OrchExecution)
    (hids : (steps.map (fun st => st.id)).Nodup)
    (hinv : OrchInv steps s)
    (hlen : steps.length ≤ s.completed_steps.length + s.failed_steps.length) :
    ∀ st ∈ steps, st.id ∈ s.completed_steps ∨ st.id ∈ s.failed_steps := by
  have hsub : List.Subperm (s.completed_steps ++ s.failed_steps)
      (steps.map (fun st => st.id)) :=
    List.Nodup.subperm hinv.1 hinv.2
  have hperm : List.Perm (s.completed_steps ++ s.failed_steps)
      (steps.map (fun st => st.id)) := by
    apply hsub.perm_of_length_le
    rw [List.length_map, List.length_append]
    exact hlen
  intro st hst
  have hmem : st.id ∈ s.completed_steps ++ s.failed_steps :=
    hperm.mem_iff.mpr (List.mem_map_of_mem _ hst)
  simpa [List.mem_append] using hmem

theorem execute_workflow_steps_spec (steps : List WorkflowStep)
    (outcome : String → Option String) (retry_failed_steps : Bool)
    (hids : (steps.map (fun st => st.id)).Nodup) :
    ∀ (fuel : ℕ) (s : OrchExecution),
      OrchInv steps s → s.error = none →
      steps.length ≤ fuel + s.completed_steps.length + s.failed_steps.length →
      OrchInv steps (execute_workflow_steps steps outcome retry_failed_steps fuel s) ∧
      ((execute_workflow_steps steps outcome retry_failed_steps fuel s).error = none →
        steps.length ≤
          (execute_workflow_steps steps outcome retry_failed_steps fuel s).completed_steps.length +
          (execute_workflow_steps steps outcome retry_failed_steps fuel s).failed_steps.length) ∧
      (retry_failed_steps = true →
        (execute_workflow_steps steps outcome retry_failed_steps fuel s).completed_steps.length +
          (execute_workflow_steps steps outcome retry_failed_steps fuel s).failed_steps.length <
          steps.length →
        (execute_workflow_steps steps outcome retry_failed_steps fuel s).error =
          some "Workflow execution blocked by failed dependencies") := by
  intro fuel
  induction fuel with
  | zero =>
    intro s hinv herr hfuel
    have ht : execute_workflow_steps steps outcome retry_failed_steps 0 s = s := rfl
    rw [ht]
    exact ⟨hinv, fun _ => by omega, fun _ hlt => absurd hlt (by omega)⟩
  | succ fuel ih =>
    intro s hinv herr hfuel
    by_cases hwc : s.completed_steps.length + s.failed_steps.length < steps.length
    · by_cases hre : (get_ready_steps steps s.completed_steps s.failed_steps).isEmpty = true
      · have hremaining : ((steps.map (fun st => st.id)).filter (fun i =>
            !(s.completed_steps.contains i) &&
            !(s.failed_steps.contains i))).isEmpty = false := by
          rw [Bool.eq_false_iff]
          intro hcon
          have hempty : ((steps.map (fun st => st.id)).filter (fun i =>
              !(s.completed_steps.contains i) && !(s.failed_steps.contains i))) = [] :=
            List.isEmpty_iff.mp hcon
          have hall : ∀ i ∈ steps.map (fun st => st.id),
              i ∈ s.completed_steps ++ s.failed_steps := by
            intro i hi
            have hnp := List.filter_eq_nil_iff.mp hempty i hi
            simp only [Bool.and_eq_true, Bool.not_eq_true', not_and] at hnp
            by_cases hc : i ∈ s.completed_steps
            · exact List.mem_append.mpr (Or.inl hc)
            · have hcf : s.completed_steps.contains i = false := by simpa using hc
              have hff := hnp hcf
              have hft : s.failed_steps.contains i = true := by
                cases hcon : s.failed_steps.contains i
                · exact absurd hcon hff
                · rfl
              exact List.mem_append.mpr (Or.inr (by simpa using hft))
          have hsub2 : List.Subperm (steps.map (fun st => st.id))
              (s.completed_steps ++ s.failed_steps) :=
            List.Nodup.subperm hids hall
          have := hsub2.length_le
          rw [List.length_map, List.length_append] at this
          omega
        have ht : execute_workflow_steps steps outcome retry_failed_steps (fuel + 1) s =
            { s with error := some "Workflow execution blocked by failed dependencies" } := by
          unfold execute_workflow_steps
          rw [if_pos hwc, if_pos hre,
            if_neg (by rw [hremaining]; exact Bool.false_ne_true)]
        rw [ht]
        refine ⟨⟨hinv.1, hinv.2⟩, fun habs => absurd habs (by simp), fun _ _ => rfl⟩
      · have hready_sub : List.Sublist
            (get_ready_steps steps s.completed_steps s.failed_steps)
            (steps.map (fun st => st.id)) := by
          unfold get_ready_steps
          exact (List.filter_sublist _).map _
        have hready_nd : (get_ready_steps steps s.completed_steps s.failed_steps).Nodup :=
          hids.sublist hready_sub
        have hready_fresh : ∀ x ∈ get_ready_steps steps s.completed_steps s.failed_steps,
            x ∉ s.completed_steps ++ s.failed_steps := by
          intro x hx
          obtain ⟨st, hst, rfl⟩ := List.mem_map.mp hx
          obtain ⟨-, hpred⟩ := List.mem_filter.mp hst
          simp only [Bool.and_eq_true, Bool.not_eq_true'] at hpred
          intro hmem
          rcases List.mem_append.mp hmem with h | h
          · have hc : s.completed_steps.contains st.id = true := by simpa using h
            rw [hpred.1.1] at hc
            cases hc
          · have hf : s.failed_steps.contains st.id = true := by simpa using h
            rw [hpred.1.2] at hf
            cases hf
        have hready_ids : ∀ x ∈ get_ready_steps steps s.completed_steps s.failed_steps,
            x ∈ steps.map (fun st => st.id) := by
          intro x hx
          obtain ⟨st, hst, rfl⟩ := List.mem_map.mp hx
          exact List.mem_map_of_mem _ (List.mem_filter.mp hst).1
        obtain ⟨hI, hG, hE, hS⟩ := process_ready_spec steps outcome retry_failed_steps
          (get_ready_steps steps s.completed_steps s.failed_steps) s
          hready_nd hready_fresh hready_ids hinv
        rcases hpr : process_ready outcome retry_failed_steps
            (get_ready_steps steps s.completed_steps s.failed_steps) s with ⟨s', stop⟩
        rw [hpr] at hI hG hE hS
        dsimp only at hI hG hE hS
        cases stop with
        | true =>
          have ht : execute_workflow_steps steps outcome retry_failed_steps (fuel + 1) s
              = s' := by
            unfold execute_workflow_steps
            rw [if_pos hwc, if_neg hre, hpr]
          rw [ht]
          obtain ⟨hsome, hretryf⟩ := hS rfl
          refine ⟨hI, fun habs => ?_, fun hretry _ => ?_⟩
          · rw [habs] at hsome; cases hsome
          · rw [hretry] at hretryf; cases hretryf
        | false =>
          have herr' : s'.error = none := by rw [hE rfl]; exact herr
          have hgrow : s.completed_steps.length + s.failed_steps.length + 1 ≤
              s'.completed_steps.length + s'.failed_steps.length := by
            rw [if_neg hre] at hG
            omega
          have hfuel' : steps.length ≤
              fuel + s'.completed_steps.length + s'.failed_steps.length := by
            omega
          have ht : execute_workflow_steps steps outcome retry_failed_steps (fuel + 1) s
              = execute_workflow_steps steps outcome retry_failed_steps fuel s' := by
            conv_lhs => unfold execute_workflow_steps
            rw [if_pos hwc, if_neg hre, hpr]
          rw [ht]
          exact ih s' hI herr' hfuel'
    · have ht : execute_workflow_steps steps outcome retry_failed_steps (fuel + 1) s
          = s := by
        unfold execute_workflow_steps
        rw [if_neg hwc]
      rw [ht]
      refine ⟨hinv, fun _ => by omega, fun _ hlt => absurd hlt (by omega)⟩

/-- Claim C9: the scheduler's dispatch loop terminates on every input (the
loop function is total and `steps.length + 1` fuel is never exhausted):
when it ends with the execution error unset, every step has settled; any
set error makes the final status "failed"; and — with the retry policy
enabled, so that a step failure alone does not abort the loop — whenever
non-settled steps remain at exit (no step ready, none running), the
deadlock guard has force-terminated the run with the "blocked by failed
dependencies" error. -/
theorem scheduler_never_hangs (steps : List WorkflowStep)
    (outcome : String → Option String) (retry_failed_steps : Bool)
    (hids : (steps.map (fun st => st.id)).Nodup) :
    ((orchestrate steps outcome retry_failed_steps).error = none →
      ∀ st ∈ steps,
        st.id ∈ (orchestrate steps outcome retry_failed_steps).completed_steps ∨
        st.id ∈ (orchestrate steps outcome retry_failed_steps).failed_steps) ∧
    ((orchestrate steps outcome retry_failed_steps).error ≠ none →
      workflow_status (orchestrate steps outcome retry_failed_steps) = "failed") ∧
    (retry_failed_steps = true →
      (∃ st ∈ steps,
        st.id ∉ (orchestrate steps outcome retry_failed_steps).completed_steps ∧
        st.id ∉ (orchestrate steps outcome retry_failed_steps).failed_steps) →
      (orchestrate steps outcome retry_failed_steps).error =
        some "Workflow execution blocked by failed dependencies") := by
  obtain ⟨hI, hC, hB⟩ := execute_workflow_steps_spec steps outcome retry_failed_steps
    hids (steps.length + 1)
    { completed_steps := [], failed_steps := [], error := none }
    ⟨by simp, by simp⟩ rfl (by simp)
  refine ⟨?_, ?_, ?_⟩
  · intro herr
    exact settled_covers steps _ hids hI (hC herr)
  · intro herr
    unfold workflow_status
    rw [if_pos (Option.ne_none_iff_isSome.mp herr)]
  · intro hretry hex
    obtain ⟨st, hst, hnc, hnf⟩ := hex
    apply hB hretry
    by_contra hge
    rcases settled_covers steps _ hids hI (by omega) st hst with h | h
    · exact hnc h
    · exact hnf h

/-- Scenario for the C9 witness: B depends on A; A's step body fails
permanently; retries of failed steps are enabled. -/
def stepsW : List WorkflowStep :=
  [ { id := "A", dependencies := [] }
  , { id := "B", dependencies := ["A"] } ]

/-- Outcome oracle for the C9 witness. -/
def outcomeW : String → Option String := fun step_id =>
  if step_id = "A" then some "boom" else none

/-- Witness for C9: in the concrete blocked scenario the scheduler stops
with the blocked-by-failed-dependencies error. -/
theorem scheduler_never_hangs_witness :
    (orchestrate stepsW outcomeW true).error =
      some "Workflow execution blocked by failed dependencies" :=
  (scheduler_never_hangs stepsW outcomeW true (by decide)).2.2 rfl
    ⟨{ id := "B", dependencies := ["A"] }, by decide, by decide, by decide⟩

end MultAgent
